import Mathlib

/-!
Shallow embedding of the term-extraction pipeline of cboulanger/bibliometry-tools:

* src/src/domain_terminology_extraction.py — class TextRank4Keyword (the
  n-gram TextRank engine: sentence_segment, get_vocab, get_token_pairs,
  symmetrize, get_matrix, the power iteration of analyze, get_weights) and
  the CSV helper get_replace_dict_from_file;
* src/scripts/corpus-to-keywords.py — the period/batch controller (period
  partitioning, skip-if-done, sub-batch weight accumulation and averaging,
  per-period CSV write, final aggregation).

Python floats are embedded as exact rationals, Python dicts as association
lists with insert-or-update-in-place semantics (update keeps the position of
the key, a fresh key goes to the end — the insertion-order behaviour of
Python dicts), and the spaCy tagger is external: the engine is modelled from
the point where a document has become a list of sentences of tagged tokens,
exactly as TextRank4Keyword.sentence_segment receives them.

numpy.divide(g, norm, where := cond) with the default out array leaves every
cell where the condition is false uninitialized (this is documented numpy
behaviour); the embedding makes that explicit by threading a function
uninit that supplies the contents of the freshly allocated output buffer.
-/

/-- A spaCy token as TextRank4Keyword.sentence_segment reads it: its text,
its coarse part-of-speech tag, and its stop-word flag. -/
structure Token where
  text : String
  pos : String
  is_stop : Bool

/-- Python str.lower() on a token text, applied character by character. -/
def strLower (s : String) : String := ⟨s.data.map Char.toLower⟩

/-- The filter of sentence_segment: the token has a candidate POS tag and is
not a stop word (token.pos_ in candidate_pos and token.is_stop is False). -/
def qualifies (candidate_pos : List String) (t : Token) : Bool :=
  candidate_pos.contains t.pos && !t.is_stop

/-- One sentence of TextRank4Keyword.sentence_segment: first the unigram pass
over the tokens, then (if bigrams) the pass over all adjacent index pairs,
then (if trigrams) the pass over all adjacent index triples.  The branches
reproduce the source exactly: in the bigram and trigram passes, when lower is
true the code appends sent[i].text.lower() — only the first token, lowered —
while only the non-lower branch concatenates the tokens into a compound. -/
def segmentSentence (candidate_pos : List String) (lower bigrams trigrams : Bool)
    (sent : List Token) : List String :=
  let unigrams := sent.filterMap (fun t =>
    if qualifies candidate_pos t then
      some (if lower then strLower t.text else t.text)
    else none)
  let bigramPass :=
    if bigrams then
      (List.range (sent.length - 1)).filterMap (fun i =>
        match sent.get? i, sent.get? (i + 1) with
        | some a, some b =>
          if qualifies candidate_pos a && qualifies candidate_pos b then
            some (if lower then strLower a.text else a.text ++ " " ++ b.text)
          else none
        | _, _ => none)
    else []
  let trigramPass :=
    if trigrams then
      (List.range (sent.length - 2)).filterMap (fun i =>
        match sent.get? i, sent.get? (i + 1), sent.get? (i + 2) with
        | some a, some b, some c =>
          if qualifies candidate_pos a && qualifies candidate_pos b &&
              qualifies candidate_pos c then
            some (if lower then strLower a.text
                  else a.text ++ " " ++ b.text ++ " " ++ c.text)
          else none
        | _, _, _ => none)
    else []
  unigrams ++ bigramPass ++ trigramPass

/-- TextRank4Keyword.sentence_segment over a whole document (a list of
sentences of tagged tokens). -/
def sentence_segment (doc : List (List Token)) (candidate_pos : List String)
    (lower bigrams trigrams : Bool) : List (List String) :=
  doc.map (segmentSentence candidate_pos lower bigrams trigrams)

/-- TextRank4Keyword.get_vocab: every distinct term in first-seen order; the
position in the list is the dense index the Python OrderedDict assigns. -/
def get_vocab (sentences : List (List String)) : List String :=
  sentences.foldl (fun v s =>
    s.foldl (fun v w => if v.contains w then v else v ++ [w]) v) []

/-- TextRank4Keyword.get_token_pairs: for each sentence, each position i is
paired with each position j in range(i+1, i+window_size) that is still inside
the sentence; a pair already collected is not appended again. -/
def get_token_pairs (window_size : Nat) (sentences : List (List String)) :
    List (String × String) :=
  sentences.foldl (fun acc sentence =>
    sentence.enum.foldl (fun acc iw =>
      (List.range' (iw.1 + 1) (window_size - 1)).foldl (fun acc j =>
        match sentence.get? j with
        | none => acc
        | some wj =>
          if acc.contains (iw.2, wj) then acc else acc ++ [(iw.2, wj)]) acc) acc) []

/-- The raw adjacency matrix of get_matrix: g[i][j] is set to 1 for every
token pair (word1, word2) with vocab[word1] = i and vocab[word2] = j, all
other cells stay 0. -/
def adjacency (vocab : List String) (token_pairs : List (String × String))
    (i j : Nat) : ℚ :=
  if token_pairs.any (fun p => vocab.indexOf p.1 == i && vocab.indexOf p.2 == j)
  then 1 else 0

/-- TextRank4Keyword.symmetrize: a + a.T - diag(a.diagonal()), cellwise. -/
def symmetrize (a : Nat → Nat → ℚ) (i j : Nat) : ℚ :=
  a i j + a j i - (if i = j then a i i else 0)

/-- Column sum of an n × n matrix: np.sum(g, axis := 0) at column j. -/
def colSum (n : Nat) (g : Nat → Nat → ℚ) (j : Nat) : ℚ :=
  ((List.range n).map (fun i => g i j)).sum

/-- numpy.divide(g, norm, where := norm ≠ 0) with the default out buffer:
where the column sum is nonzero the cell is divided, where it is zero the
cell keeps whatever the uninitialized output buffer held there. -/
def npDivideWhere (g : Nat → Nat → ℚ) (norm : Nat → ℚ)
    (uninit : Nat → Nat → ℚ) (i j : Nat) : ℚ :=
  if norm j ≠ 0 then g i j / norm j else uninit i j

/-- TextRank4Keyword.get_matrix: build the 0/1 adjacency matrix from the
token pairs, symmetrize it, then column-normalize it with numpy.divide. -/
def get_matrix (vocab : List String) (token_pairs : List (String × String))
    (uninit : Nat → Nat → ℚ) : Nat → Nat → ℚ :=
  let g := symmetrize (adjacency vocab token_pairs)
  npDivideWhere g (colSum vocab.length g) uninit

/-- The damping coefficient self.d = 0.85. -/
def trD : ℚ := 85 / 100

/-- The convergence threshold self.min_diff = 1e-5. -/
def trMinDiff : ℚ := 1 / 100000

/-- The iteration budget self.steps = 10. -/
def trSteps : Nat := 10

/-- Row i of np.dot(g, pr) for an n × n matrix and a vector given as a list. -/
def matVec (n : Nat) (g : Nat → Nat → ℚ) (pr : List ℚ) : List ℚ :=
  (List.range n).map (fun i => (pr.enum.map (fun jv => g i jv.1 * jv.2)).sum)

/-- The iteration loop of TextRank4Keyword.analyze: up to the given number of
epochs, update pr to (1 - d) + d * (g @ pr), and stop as soon as the sum of
the updated vector moved less than min_diff from the previously recorded
sum (previous_pr starts at 0 and is updated after every non-breaking epoch). -/
def powerIterate (n : Nat) (g : Nat → Nat → ℚ) :
    Nat → List ℚ → ℚ → List ℚ
  | 0, pr, _ => pr
  | Nat.succ k, pr, previous =>
    let pr2 := (matVec n g pr).map (fun x => (1 - trD) + trD * x)
    if |previous - pr2.sum| < trMinDiff then pr2
    else powerIterate n g k pr2 pr2.sum

/-- TextRank4Keyword.analyze from the point where the spaCy tagger has turned
the text into sentences of tagged tokens: filter the sentences, build the
vocabulary, the token pairs and the normalized matrix, run the power
iteration from the all-ones vector, and record each vocabulary word with its
final score (the node_weight dict, in vocabulary order). -/
def analyze (doc : List (List Token)) (candidate_pos : List String)
    (window_size : Nat) (lower bigrams trigrams : Bool)
    (uninit : Nat → Nat → ℚ) : List (String × ℚ) :=
  let sentences := sentence_segment doc candidate_pos lower bigrams trigrams
  let vocab := get_vocab sentences
  let token_pairs := get_token_pairs window_size sentences
  let g := get_matrix vocab token_pairs uninit
  let pr := powerIterate vocab.length g trSteps (List.replicate vocab.length 1) 0
  vocab.enum.map (fun iw => (iw.2, pr.getD iw.1 0))

/-- Helper for wordCount: count the maximal runs of non-space characters,
tracking whether the scan is currently inside such a run. -/
def wordCountAux : List Char → Bool → Nat
  | [], _ => 0
  | c :: rest, inWord =>
    if c = ' ' then wordCountAux rest false
    else (if inWord then 0 else 1) + wordCountAux rest true

/-- Python len(s.split()) on the space-joined terms the engine builds: the
number of maximal runs of non-space characters. -/
def wordCount (s : String) : Nat := wordCountAux s.data false

/-- Stable insertion of one entry into a list sorted by descending weight:
the entry goes immediately before the first element whose weight is ≤ its
own, so earlier entries win ties — the behaviour of a stable descending
sort. -/
def insertDesc (x : String × ℚ) : List (String × ℚ) → List (String × ℚ)
  | [] => [x]
  | y :: ys => if y.2 ≤ x.2 then x :: y :: ys else y :: insertDesc x ys

/-- Stable sort by descending weight (Python sorted with key = weight and
reverse = True). -/
def sortDesc (l : List (String × ℚ)) : List (String × ℚ) :=
  l.foldr insertDesc []

/-- TextRank4Keyword.get_weights: copy the stored node_weight items into
fresh two-element lists, scale a copied weight by 4 when the term has two
space-separated words and by 6 when it has three, and return the copies
sorted by descending weight.  The stored dict itself is not touched — the
mutation hits only the fresh copies. -/
def get_weights (node_weight : List (String × ℚ)) : List (String × ℚ) :=
  sortDesc (node_weight.map (fun p =>
    let res := wordCount p.1
    let w1 := if res = 2 then 4 * p.2 else p.2
    let w2 := if res = 3 then 6 * w1 else w1
    (p.1, w2)))

/-- TextRank4Keyword.get_weights as the state transformer the Python method
is: it returns the scaled, sorted copies and leaves the stored node_weight
unchanged (node_weight_list is built from fresh list copies of the items, so
the in-place scaling never reaches the dict). -/
def get_weightsState (node_weight : List (String × ℚ)) :
    List (String × ℚ) × List (String × ℚ) :=
  (get_weights node_weight, node_weight)

/-- Python dict assignment d[k] = v on an association list: if the key is
present its value is updated in place, otherwise the pair is appended. -/
def dictInsert {α : Type} : List (String × α) → String → α → List (String × α)
  | [], k, v => [(k, v)]
  | p :: rest, k, v =>
    if p.1 == k then (k, v) :: rest else p :: dictInsert rest k v

/-- Python dict lookup: the value stored at the first (hence, for a dict,
only) entry with the key. -/
def dictGet {α : Type} : List (String × α) → String → Option α
  | [], _ => none
  | p :: rest, k => if p.1 == k then some p.2 else dictGet rest k

/-- Lines 128-131 of scripts/corpus-to-keywords.py: fold one sub-batch of
engine results into the kw_weights accumulator.  When the keyword is already
present its weight list is extended (line 130), but line 131 then
unconditionally overwrites the entry with the one-element list [weight], so
only the most recent sub-batch survives. -/
def accumulate_kw_weights : List (String × List ℚ) → List (String × ℚ) →
    List (String × List ℚ)
  | m, [] => m
  | m, (kw, w) :: rest =>
    let m1 := match dictGet m kw with
      | some row => dictInsert m kw (row ++ [w])
      | none => m
    accumulate_kw_weights (dictInsert m1 kw [w]) rest

/-- Lines 136-141 of scripts/corpus-to-keywords.py: the per-period,
per-language table that is written to {period}-{lang}.csv — each accumulated
keyword with the average of its stored weight list, sorted by descending
weight.  No exclusion filter is applied here. -/
def periodTable (kw_weights : List (String × List ℚ)) : List (String × ℚ) :=
  sortDesc (kw_weights.map (fun p => (p.1, p.2.sum / (p.2.length : ℚ))))

/-- Python range(a, b). -/
def pyRange (a b : Nat) : List Nat :=
  (List.range (b - a)).map (fun k => a + k)

/-- Line 78 of scripts/corpus-to-keywords.py: the display label of a period. -/
def periodLabel (period_start period_end : Nat) : String :=
  if period_start ≠ period_end
  then toString period_start ++ "-" ++ toString period_end
  else toString period_start

/-- Lines 71-86 of scripts/corpus-to-keywords.py, restricted to the label
bookkeeping: walk the years of range(year_min, year_max); with no period
open, open one from the current year to year + (period_size - 1) and append
its label; close the period when the year reaches period_end or year_max. -/
def periodFold (year_max period_size : Nat) :
    List Nat → Option (Nat × Nat) → List String → List String
  | [], _, plist => plist
  | year :: rest, opn, plist =>
    let st := match opn with
      | none =>
        ((year, year + (period_size - 1)),
          plist ++ [periodLabel year (year + (period_size - 1))])
      | some pe => (pe, plist)
    if year = st.1.2 ∨ year = year_max then
      periodFold year_max period_size rest none st.2
    else
      periodFold year_max period_size rest (some st.1) st.2

/-- The period_list the controller builds for a corpus whose resolved years
span [year_min, year_max]. -/
def period_list (year_min year_max period_size : Nat) : List String :=
  periodFold year_max period_size (pyRange year_min year_max) none []

/-- Language codes used by the controller. -/
def langDe : String := "de"

/-- Language codes used by the controller. -/
def langEn : String := "en"

/-- The output file name f-string {period}-{lang}.csv of the controller. -/
def outputName (period lang : String) : String :=
  period ++ "-" ++ lang ++ ".csv"

/-- Lines 89-90 of scripts/corpus-to-keywords.py: a period is skipped when
its English or its German CSV already exists. -/
def skipDone (fs : List String) (period : String) : Bool :=
  fs.contains (outputName period langEn) || fs.contains (outputName period langDe)

/-- Lines 109-141 of scripts/corpus-to-keywords.py, at file granularity: for
each of the two languages in the order the code iterates them, the period
CSV is written exactly when the accumulated keyword set is nonempty; engine
gives, per period and language, the keywords that survive accumulation. -/
def writeOutputs (engine : String → String → List (String × ℚ))
    (period : String) (fs : List String) : List String :=
  let fs1 := if (engine period langDe).isEmpty then fs
    else fs ++ [outputName period langDe]
  if (engine period langEn).isEmpty then fs1
  else fs1 ++ [outputName period langEn]

/-- One controller pass over the period list (lines 84-141): a period whose
skip-if-done check fires is left alone; otherwise it is processed — its
outputs are written and the period is recorded as having been worked on.
Returns the file system after the pass and the periods that were processed. -/
def runController (engine : String → String → List (String × ℚ)) :
    List String → List String → List String × List String
  | [], fs => (fs, [])
  | period :: rest, fs =>
    if skipDone fs period then
      runController engine rest fs
    else
      let fs2 := writeOutputs engine period fs
      let r := runController engine rest fs2
      (r.1, period :: r.2)

/-- Lines 155-163 of scripts/corpus-to-keywords.py: fold the rows of one
period CSV into the all_kw_weights accumulator, skipping every keyword that
is a key of the replacement table (ignore_list). -/
def aggregateRows (ignore : List String) (period : String) :
    List (String × ℚ) → List (String × List (String × ℚ)) →
    List (String × List (String × ℚ))
  | [], acc => acc
  | row :: rest, acc =>
    if ignore.contains row.1 then aggregateRows ignore period rest acc
    else
      match dictGet acc row.1 with
      | some m =>
        aggregateRows ignore period rest (dictInsert acc row.1 (dictInsert m period row.2))
      | none =>
        aggregateRows ignore period rest (dictInsert acc row.1 [(period, row.2)])

/-- Lines 146-163: fold every existing period table of one language. -/
def aggregateTables (ignore : List String) :
    List (String × List (String × ℚ)) → List (String × List (String × ℚ)) →
    List (String × List (String × ℚ))
  | [], acc => acc
  | t :: rest, acc => aggregateTables ignore rest (aggregateRows ignore t.1 t.2 acc)

/-- The final aggregated keyword × period matrix of one language: every
period table folded in, with ignore_list = the keys of the replacement
table. -/
def aggregate (replace_terms : List (String × String))
    (tables : List (String × List (String × ℚ))) :
    List (String × List (String × ℚ)) :=
  aggregateTables (replace_terms.map Prod.fst) tables []

/-- get_replace_dict_from_file of src/src/domain_terminology_extraction.py,
row loop: a row with no cells at all makes row[0] raise IndexError; a row
whose first cell is the empty string (falsy) is passed over; any other row
stores column 1 → column 2, or the empty string when there is no column 2. -/
def get_replace_dict_rows : List (List String) → List (String × String) →
    Except String (List (String × String))
  | [], acc => Except.ok acc
  | row :: rest, acc =>
    match row with
    | [] => Except.error "IndexError"
    | c0 :: restRow =>
      if c0 = "" then get_replace_dict_rows rest acc
      else get_replace_dict_rows rest (dictInsert acc c0 (restRow.headD ""))

/-- get_replace_dict_from_file on the parsed CSV rows. -/
def get_replace_dict (rows : List (List String)) :
    Except String (List (String × String)) :=
  get_replace_dict_rows rows []

/-- Later value wins: the combination used to state what a sequence of row
inserts leaves in the dict. -/
def orElseOpt (later earlier : Option String) : Option String :=
  match later with
  | some v => some v
  | none => earlier

/-- The corrected row semantics of get_replace_dict, stated independently of
the code: a nonempty key k is mapped by the last row whose first column is
k, to that row column 2 (or the empty string when the row has one column);
rows whose first column is empty contribute nothing. -/
def specLastRowValue : List (List String) → String → Option String
  | [], _ => none
  | row :: rest, k =>
    match specLastRowValue rest k with
    | some v => some v
    | none =>
      if k ≠ "" ∧ row.head? = some k then some ((row.drop 1).headD "") else none

/-- The descending-weight order on weighted terms. -/
def weightGE (a b : String × ℚ) : Prop := b.2 ≤ a.2

/-- The candidate POS configuration of the default analyze call. -/
def cpNV : List String := ["NOUN", "VERB"]

/-- A document with a single one-token sentence: its only term forms no
token pair, so its adjacency column sums to zero. -/
def docIsolated : List (List Token) := [[⟨"alpha", "NOUN", false⟩]]

/-- The candidate sentences of docIsolated. -/
def sentIsolated : List (List String) :=
  sentence_segment docIsolated cpNV true true true

/-- A document with two one-token sentences: both terms are isolated, so
every adjacency column sums to zero and the whole normalized matrix is read
from the uninitialized buffer. -/
def docTwoIsolated : List (List Token) :=
  [[⟨"a", "NOUN", false⟩], [⟨"b", "NOUN", false⟩]]

/-- One possible content of the uninitialized numpy output buffer. -/
def uninitNeg : Nat → Nat → ℚ :=
  fun i j => if i == 0 && j == 1 then -2 else 0

/-- An engine outcome with no keywords for any period or language: the
processing of such a period writes no CSV at all. -/
def engineEmpty : String → String → List (String × ℚ) := fun _ _ => []

unseal Rat.add Rat.mul Rat.inv Rat.sub

/-- Updating a key leaves the lookup of every other key unchanged. -/
theorem dictGet_dictInsert_ne {α : Type} (v : α) :
    ∀ (m : List (String × α)) (k k2 : String), k2 ≠ k →
      dictGet (dictInsert m k v) k2 = dictGet m k2 := by
  intro m
  induction m with
  | nil =>
    intro k k2 hne
    simp [dictInsert, dictGet, hne, Ne.symm hne]
  | cons p rest ih =>
    intro k k2 hne
    by_cases hp : p.1 = k
    · simp [dictInsert, dictGet, hp, hne, Ne.symm hne]
    · by_cases hp2 : p.1 = k2
      · simp [dictInsert, dictGet, hp, hp2, hne, Ne.symm hne]
      · simp [dictInsert, dictGet, hp, hp2, ih k k2 hne]

/-- Updating a key makes its lookup return the new value. -/
theorem dictGet_dictInsert_self {α : Type} (v : α) :
    ∀ (m : List (String × α)) (k : String),
      dictGet (dictInsert m k v) k = some v := by
  intro m
  induction m with
  | nil => intro k; simp [dictInsert, dictGet]
  | cons p rest ih =>
    intro k
    by_cases hp : p.1 = k
    · simp [dictInsert, dictGet, hp]
    · simp [dictInsert, dictGet, hp, ih k]

/-- Membership in an insertion-sorted list. -/
theorem mem_insertDesc {x z : String × ℚ} :
    ∀ {l : List (String × ℚ)}, z ∈ insertDesc x l ↔ z = x ∨ z ∈ l := by
  intro l
  induction l with
  | nil => simp [insertDesc]
  | cons y ys ih =>
    by_cases hc : y.2 ≤ x.2
    · simp [insertDesc, hc]
    · simp only [insertDesc, if_neg hc, List.mem_cons, ih]
      tauto

/-- Inserting into a descending-sorted list keeps it descending-sorted. -/
theorem insertDesc_pairwise (x : String × ℚ) :
    ∀ (l : List (String × ℚ)), l.Pairwise weightGE →
      (insertDesc x l).Pairwise weightGE := by
  intro l
  induction l with
  | nil => intro _; simp [insertDesc, weightGE]
  | cons y ys ih =>
    intro h
    rw [List.pairwise_cons] at h
    by_cases hc : y.2 ≤ x.2
    · rw [insertDesc, if_pos hc]
      refine List.pairwise_cons.mpr ⟨?_, List.pairwise_cons.mpr h⟩
      intro z hz
      rcases List.mem_cons.mp hz with hz | hz
      · subst hz; exact hc
      · exact le_trans (h.1 z hz) hc
    · rw [insertDesc, if_neg hc]
      refine List.pairwise_cons.mpr ⟨?_, ih h.2⟩
      intro z hz
      rcases mem_insertDesc.mp hz with hz | hz
      · subst hz; exact le_of_not_le hc
      · exact h.1 z hz

/-- The insertion result is a permutation of pushing the element in front. -/
theorem insertDesc_perm (x : String × ℚ) :
    ∀ (l : List (String × ℚ)), (insertDesc x l).Perm (x :: l) := by
  intro l
  induction l with
  | nil => simp [insertDesc]
  | cons y ys ih =>
    by_cases hc : y.2 ≤ x.2
    · rw [insertDesc, if_pos hc]
    · rw [insertDesc, if_neg hc]
      exact (List.Perm.cons y ih).trans (List.Perm.swap x y ys)

/-- The stable descending sort is sorted by descending weight. -/
theorem sortDesc_pairwise : ∀ (l : List (String × ℚ)),
    (sortDesc l).Pairwise weightGE := by
  intro l
  induction l with
  | nil => simp [sortDesc]
  | cons x xs ih => exact insertDesc_pairwise x (sortDesc xs) ih

/-- The stable descending sort permutes its input. -/
theorem sortDesc_perm : ∀ (l : List (String × ℚ)), (sortDesc l).Perm l := by
  intro l
  induction l with
  | nil => simp [sortDesc]
  | cons x xs ih =>
    exact (insertDesc_perm x (sortDesc xs)).trans (List.Perm.cons x ih)

/-- The aggregation loop never adds an ignored keyword: folding the rows of
one period table leaves the lookup of any ignored keyword unchanged. -/
theorem aggregateRows_ignored (ignore : List String) (period kw : String)
    (hkw : kw ∈ ignore) :
    ∀ (rows : List (String × ℚ)) (acc : List (String × List (String × ℚ))),
      dictGet (aggregateRows ignore period rows acc) kw = dictGet acc kw := by
  intro rows
  induction rows with
  | nil => intro acc; rfl
  | cons row rest ih =>
    intro acc
    by_cases hig : row.1 ∈ ignore
    · simp [aggregateRows, hig, ih]
    · have hne : kw ≠ row.1 := fun he => hig (he ▸ hkw)
      rcases hacc : dictGet acc row.1 with _ | m
      · simp [aggregateRows, hig, hacc, ih, dictGet_dictInsert_ne _ _ _ _ hne]
      · simp [aggregateRows, hig, hacc, ih, dictGet_dictInsert_ne _ _ _ _ hne]

/-- Folding every period table leaves an ignored keyword absent. -/
theorem aggregateTables_ignored (ignore : List String) (kw : String)
    (hkw : kw ∈ ignore) :
    ∀ (tables : List (String × List (String × ℚ)))
      (acc : List (String × List (String × ℚ))),
      dictGet (aggregateTables ignore tables acc) kw = dictGet acc kw := by
  intro tables
  induction tables with
  | nil => intro acc; rfl
  | cons t rest ih =>
    intro acc
    simp [aggregateTables, ih, aggregateRows_ignored ignore t.1 kw hkw]

/-- Writing a period's outputs only appends file names. -/
theorem writeOutputs_mono (engine : String → String → List (String × ℚ))
    (p : String) (fs : List String) (x : String) (hx : x ∈ fs) :
    x ∈ writeOutputs engine p fs := by
  unfold writeOutputs
  by_cases h1 : (engine p langDe).isEmpty <;>
    by_cases h2 : (engine p langEn).isEmpty <;>
      simp [h1, h2, hx]

/-- A controller pass only appends file names. -/
theorem runController_mono (engine : String → String → List (String × ℚ)) :
    ∀ (periods : List String) (fs : List String) (x : String), x ∈ fs →
      x ∈ (runController engine periods fs).1 := by
  intro periods
  induction periods with
  | nil => intro fs x hx; simpa [runController] using hx
  | cons p rest ih =>
    intro fs x hx
    by_cases hskip : skipDone fs p
    · simpa [runController, hskip] using ih fs x hx
    · simpa [runController, hskip] using
        ih (writeOutputs engine p fs) x (writeOutputs_mono engine p fs x hx)

/-- A fired skip-if-done check keeps firing once more files exist. -/
theorem skipDone_mono (fs fs2 : List String) (p : String)
    (hsub : ∀ x, x ∈ fs → x ∈ fs2) (h : skipDone fs p = true) :
    skipDone fs2 p = true := by
  simp only [skipDone, Bool.or_eq_true, List.elem_iff] at h ⊢
  rcases h with h | h
  · exact Or.inl (hsub _ h)
  · exact Or.inr (hsub _ h)

/-- Processing a period that produces at least one keyword table makes its
skip-if-done check fire. -/
theorem skipDone_writeOutputs (engine : String → String → List (String × ℚ))
    (p : String) (fs : List String)
    (h : ¬ ((engine p langEn).isEmpty = true ∧ (engine p langDe).isEmpty = true)) :
    skipDone (writeOutputs engine p fs) p = true := by
  by_cases h1 : (engine p langDe).isEmpty <;>
    by_cases h2 : (engine p langEn).isEmpty <;>
      simp [writeOutputs, skipDone, h1, h2] at h ⊢

/-- After one controller pass, every period either has an output file on
disk (its skip check fires) or produced no keywords in either language. -/
theorem runController_closes (engine : String → String → List (String × ℚ)) :
    ∀ (periods : List String) (fs : List String) (p : String), p ∈ periods →
      skipDone (runController engine periods fs).1 p = true ∨
      ((engine p langEn).isEmpty = true ∧ (engine p langDe).isEmpty = true) := by
  intro periods
  induction periods with
  | nil => intro fs p hp; cases hp
  | cons q rest ih =>
    intro fs p hp
    by_cases hskip : skipDone fs q
    · rcases List.mem_cons.mp hp with hp | hp
      · subst hp
        left
        simp only [runController, hskip, if_pos]
        exact skipDone_mono fs _ p (runController_mono engine rest fs) hskip
      · simpa [runController, hskip] using ih fs p hp
    · rcases List.mem_cons.mp hp with hp | hp
      · subst hp
        by_cases hempty : (engine p langEn).isEmpty = true ∧ (engine p langDe).isEmpty = true
        · exact Or.inr hempty
        · left
          simp only [runController, hskip, if_neg, Bool.not_eq_true]
          exact skipDone_mono _ _ p (runController_mono engine rest _)
            (skipDone_writeOutputs engine p fs hempty)
      · simpa [runController, hskip] using ih (writeOutputs engine q fs) p hp

/-- Writing the outputs of a period with no keywords changes nothing. -/
theorem writeOutputs_empty (engine : String → String → List (String × ℚ))
    (p : String) (fs : List String)
    (h : (engine p langEn).isEmpty = true ∧ (engine p langDe).isEmpty = true) :
    writeOutputs engine p fs = fs := by
  simp [writeOutputs, h.1, h.2]

/-- A controller pass over periods that are each either already done or
keyword-free leaves the files untouched, and every period it still processes
is keyword-free. -/
theorem runController_stable (engine : String → String → List (String × ℚ)) :
    ∀ (periods : List String) (fs : List String),
      (∀ p, p ∈ periods → skipDone fs p = true ∨
        ((engine p langEn).isEmpty = true ∧ (engine p langDe).isEmpty = true)) →
      (runController engine periods fs).1 = fs ∧
      (∀ p, p ∈ (runController engine periods fs).2 →
        (engine p langEn).isEmpty = true ∧ (engine p langDe).isEmpty = true) := by
  intro periods
  induction periods with
  | nil => intro fs _; simp [runController]
  | cons q rest ih =>
    intro fs hyp
    by_cases hskip : skipDone fs q
    · have hr := ih fs (fun p hp => hyp p (List.mem_cons_of_mem q hp))
      simpa [runController, hskip] using hr
    · have hq : (engine q langEn).isEmpty = true ∧ (engine q langDe).isEmpty = true := by
        rcases hyp q (List.mem_cons_self q rest) with h | h
        · exact absurd h hskip
        · exact h
      have hw := writeOutputs_empty engine q fs hq
      have hr := ih fs (fun p hp => hyp p (List.mem_cons_of_mem q hp))
      constructor
      · simpa [runController, hskip, hw] using hr.1
      · intro p hp
        simp only [runController, hskip, hw] at hp
        rw [if_neg (by simp [hskip])] at hp
        rcases List.mem_cons.mp (by simpa using hp) with hp2 | hp2
        · exact hp2 ▸ hq
        · exact hr.2 p hp2

/-- Row-loop characterization of get_replace_dict: when no row is entirely
without cells, the loop succeeds, and the final lookup of any key is the
last row with that (nonempty) first cell, falling back to the accumulator. -/
theorem get_replace_dict_rows_spec :
    ∀ (rows : List (List String)) (acc : List (String × String)),
      ¬ [] ∈ rows →
      ∃ m, get_replace_dict_rows rows acc = Except.ok m ∧
        ∀ k, dictGet m k = orElseOpt (specLastRowValue rows k) (dictGet acc k) := by
  intro rows
  induction rows with
  | nil =>
    intro acc _
    exact ⟨acc, rfl, fun k => rfl⟩
  | cons row rest ih =>
    intro acc hne
    have hrow : row ≠ [] := fun he => hne (by simp [he])
    have hrest : ¬ [] ∈ rest := fun he => hne (List.mem_cons_of_mem row he)
    rcases row with _ | ⟨c0, rr⟩
    · exact absurd rfl hrow
    by_cases hc0 : c0 = ""
    · subst hc0
      obtain ⟨m, hm, hk⟩ := ih acc hrest
      refine ⟨m, by simpa [get_replace_dict_rows] using hm, fun k => ?_⟩
      rw [hk k]
      rcases hs : specLastRowValue rest k with _ | v
      · by_cases hk0 : k = ""
        · subst hk0
          simp [specLastRowValue, orElseOpt, hs]
        · simp [specLastRowValue, orElseOpt, hs, hk0, Ne.symm hk0]
      · simp [specLastRowValue, orElseOpt, hs]
    · obtain ⟨m, hm, hk⟩ := ih (dictInsert acc c0 (rr.headD "")) hrest
      refine ⟨m, by simpa [get_replace_dict_rows, hc0] using hm, fun k => ?_⟩
      rw [hk k]
      rcases hs : specLastRowValue rest k with _ | v
      · by_cases hkc : k = c0
        · subst hkc
          simp [specLastRowValue, orElseOpt, hs, hc0, dictGet_dictInsert_self]
        · simp [specLastRowValue, orElseOpt, hs, hkc, Ne.symm hkc,
            dictGet_dictInsert_ne _ _ _ _ hkc]
      · simp [specLastRowValue, orElseOpt, hs]

/-- C1: evaluation of the sub-batch accumulation at the spec's own example.
A term with weight 2.0 in the first sub-batch and 4.0 in the second is
persisted with weight 4.0 — the unconditional overwrite on line 131 keeps
only the last sub-batch, so the persisted value is not the arithmetic
mean 3.0 the claim states. -/
theorem C1_code_eval :
    dictGet (periodTable (accumulate_kw_weights
      (accumulate_kw_weights [] [("t", 2)]) [("t", 4)])) "t" = some 4 ∧
    ¬ (4 : ℚ) = 3 := by decide

/-- C2: evaluation of the period partitioning at the spec's own example.
For year_min = 1990, year_max = 1994, period_size = 2 the code produces
only ["1990-1991", "1992-1993"]: the loop ranges over
range(year_min, year_max), which never visits year_max, so the trailing
period "1994" is dropped and the year 1994 is covered by no period. -/
theorem C2_code_eval :
    period_list 1990 1994 2 = ["1990-1991", "1992-1993"] ∧
    "1994" ∉ period_list 1990 1994 2 ∧
    (1994 : Nat) ∉ pyRange 1990 1994 := by decide

/-- C3: evaluation of sentence_segment on a sentence of two (respectively
three) qualifying tokens.  With lower = true the bigram and trigram passes
append only the first token of the window, lowered — never the case-folded
compound — while with lower = false the proper compound term is built. -/
theorem C3_code_eval :
    segmentSentence ["NOUN", "VERB"] true true true
      [⟨"Legal", "NOUN", false⟩, ⟨"Theory", "NOUN", false⟩] =
      ["legal", "theory", "legal"] ∧
    "legal theory" ∉ segmentSentence ["NOUN", "VERB"] true true true
      [⟨"Legal", "NOUN", false⟩, ⟨"Theory", "NOUN", false⟩] ∧
    segmentSentence ["NOUN", "VERB"] true true true
      [⟨"Legal", "NOUN", false⟩, ⟨"Theory", "NOUN", false⟩, ⟨"Review", "NOUN", false⟩] =
      ["legal", "theory", "review", "legal", "theory", "legal"] ∧
    segmentSentence ["NOUN", "VERB"] false true true
      [⟨"Legal", "NOUN", false⟩, ⟨"Theory", "NOUN", false⟩] =
      ["Legal", "Theory", "Legal Theory"] := by decide

/-- C4 counterexample: a term that is a key of the replacement/exclusion
table does appear in a per-period output table — the per-period write of
lines 136-141 applies no exclusion filter, so whatever the engine returns
is written. -/
theorem C4_counterexample :
    "foo" ∈ (([("foo", "")] : List (String × String)).map Prod.fst) ∧
    "foo" ∈ (periodTable (accumulate_kw_weights [] [("foo", 1)])).map Prod.fst := by
  decide

/-- C4 (amended): a term whose canonical form is a key of the
replacement/exclusion table never appears in the final aggregated matrix —
the aggregation loop skips it when reading the per-period tables — though
it can appear in the per-period output tables themselves, which are written
without consulting the table. -/
theorem C4_amended (replace_terms : List (String × String))
    (tables : List (String × List (String × ℚ))) (kw : String)
    (h : kw ∈ replace_terms.map Prod.fst) :
    dictGet (aggregate replace_terms tables) kw = none := by
  unfold aggregate
  rw [aggregateTables_ignored (replace_terms.map Prod.fst) kw h tables []]
  rfl

/-- C4 witness: the amended theorem applied at a concrete table. -/
theorem C4_amended_witness :
    "foo" ∈ (([("foo", "")] : List (String × String)).map Prod.fst) ∧
    dictGet (aggregate [("foo", "")] [("1990", [("foo", 1), ("bar", 2)])]) "foo" = none :=
  ⟨by decide, C4_amended [("foo", "")] [("1990", [("foo", 1), ("bar", 2)])] "foo" (by decide)⟩

/-- C5 counterexample: a period that produced no output CSV (here: the
engine yields no keywords for either language) fails the skip-if-done check
again on the second controller pass, so the second pass processes it again
instead of skipping every period. -/
theorem C5_counterexample :
    (runController engineEmpty ["1990"]
      (runController engineEmpty ["1990"] []).1).2 = ["1990"] := by decide

/-- C5 (amended): a second controller pass over the same corpus leaves the
files of the first pass untouched (prior outputs stay byte-identical), and
every period the second pass still processes is one that produced no output
CSV in either language — a period that wrote at least one CSV satisfies
skip-if-done and is not reprocessed.  The skip check is not satisfied by
periods that produced no file, so the second pass is not computation-free. -/
theorem C5_amended (engine : String → String → List (String × ℚ))
    (periods : List String) :
    (runController engine periods (runController engine periods []).1).1 =
      (runController engine periods []).1 ∧
    ∀ p, p ∈ (runController engine periods (runController engine periods []).1).2 →
      (engine p langEn).isEmpty = true ∧ (engine p langDe).isEmpty = true :=
  runController_stable engine periods (runController engine periods []).1
    (fun p hp => runController_closes engine periods [] p hp)

/-- C5 witness: the amended theorem applied at a concrete engine and period
list. -/
theorem C5_amended_witness :
    (runController engineEmpty ["1990"]
      (runController engineEmpty ["1990"] []).1).1 =
      (runController engineEmpty ["1990"] []).1 :=
  (C5_amended engineEmpty ["1990"]).1

/-- C6 counterexample: a row whose first column begins with the character #
is not ignored — it contributes an entry — and a row with no cells at all
makes the function raise an IndexError instead of being skipped. -/
theorem C6_counterexample :
    get_replace_dict [["#foo", "bar"]] = Except.ok [("#foo", "bar")] ∧
    get_replace_dict [[]] = Except.error "IndexError" := ⟨rfl, rfl⟩

/-- C6 (amended): get_replace_dict_from_file ignores exactly the rows whose
first column is the empty string; every other row — including rows whose
first column begins with # — maps column 1 to column 2, or to the empty
string when column 2 is absent, the last such row winning; a row with no
cells at all raises an IndexError rather than being skipped. -/
theorem C6_amended (rows : List (List String)) (h : ¬ [] ∈ rows) :
    ∃ m, get_replace_dict rows = Except.ok m ∧
      ∀ k, dictGet m k = specLastRowValue rows k := by
  obtain ⟨m, hm, hk⟩ := get_replace_dict_rows_spec rows [] h
  refine ⟨m, hm, fun k => ?_⟩
  rw [hk k]
  rcases specLastRowValue rows k with _ | v <;> rfl

/-- C6 witness: the amended theorem applied at a concrete row list. -/
theorem C6_amended_witness :
    (¬ [] ∈ [["#foo", "bar"], ["", "z"], ["key"], ["key", "v2"]]) ∧
    (∃ m, get_replace_dict [["#foo", "bar"], ["", "z"], ["key"], ["key", "v2"]] =
        Except.ok m ∧
      ∀ k, dictGet m k =
        specLastRowValue [["#foo", "bar"], ["", "z"], ["key"], ["key", "v2"]] k) :=
  ⟨by decide, C6_amended [["#foo", "bar"], ["", "z"], ["key"], ["key", "v2"]] (by decide)⟩

/-- C7: when the filtered sentences yield an empty vocabulary, analyze
completes and stores an empty node_weight, and get_weights returns the
empty mapping — the degenerate case is a result, not an error. -/
theorem C7_empty_vocab (doc : List (List Token)) (candidate_pos : List String)
    (window_size : Nat) (lower bigrams trigrams : Bool) (uninit : Nat → Nat → ℚ)
    (h : get_vocab (sentence_segment doc candidate_pos lower bigrams trigrams) = []) :
    analyze doc candidate_pos window_size lower bigrams trigrams uninit = [] ∧
    get_weights (analyze doc candidate_pos window_size lower bigrams trigrams uninit) = [] := by
  have h1 : analyze doc candidate_pos window_size lower bigrams trigrams uninit = [] := by
    simp [analyze, h]
  exact ⟨h1, by rw [h1]; rfl⟩

/-- C7 witness: a document whose only tokens fail the POS filter or are stop
words produces an empty vocabulary, and the theorem applies. -/
theorem C7_empty_vocab_witness :
    get_vocab (sentence_segment [[⟨"the", "DET", true⟩, ⟨"and", "CCONJ", true⟩]]
      ["NOUN", "VERB"] true true true) = [] ∧
    analyze [[⟨"the", "DET", true⟩, ⟨"and", "CCONJ", true⟩]]
      ["NOUN", "VERB"] 4 true true true (fun _ _ => 0) = [] :=
  ⟨by decide, (C7_empty_vocab [[⟨"the", "DET", true⟩, ⟨"and", "CCONJ", true⟩]]
    ["NOUN", "VERB"] 4 true true true (fun _ _ => 0) (by decide)).1⟩

/-- C8: evaluation of get_matrix on a vocabulary with an isolated term.  Its
adjacency column sums to 0, and the normalized matrix cell then holds
whatever the uninitialized numpy output buffer held (7 when the buffer held
7, 0 when it held 0) — the zero-sum column is not left as zero, it is left
unwritten. -/
theorem C8_code_eval :
    colSum (get_vocab sentIsolated).length
      (symmetrize (adjacency (get_vocab sentIsolated)
        (get_token_pairs 4 sentIsolated))) 0 = 0 ∧
    get_matrix (get_vocab sentIsolated) (get_token_pairs 4 sentIsolated)
      (fun _ _ => 7) 0 0 = 7 ∧
    get_matrix (get_vocab sentIsolated) (get_token_pairs 4 sentIsolated)
      (fun _ _ => 0) 0 0 = 0 := by decide

/-- C9: evaluation of the full pipeline on two isolated one-term sentences
with window_size 4: every adjacency column sums to 0, the normalized matrix
is read from the uninitialized numpy buffer, and when that buffer held -2
at one cell the weight returned for the term a is -21/200 < 0 — the
returned weights are not guaranteed non-negative. -/
theorem C9_code_eval :
    dictGet (get_weights (analyze docTwoIsolated cpNV 4 true true true uninitNeg))
      "a" = some (-(21 / 200)) ∧
    (-(21 / 200) : ℚ) < 0 := by decide

/-- C10: get_weights is read-only on the stored node_weight (the scaling is
applied to fresh copies, so a second call returns the same mapping and the
stored raw scores never compound), and the returned mapping is ordered by
descending weight and pairs exactly the stored terms. -/
theorem C10_get_weights_stable (node_weight : List (String × ℚ)) :
    (get_weightsState node_weight).2 = node_weight ∧
    (get_weightsState (get_weightsState node_weight).2).1 =
      (get_weightsState node_weight).1 ∧
    ((get_weightsState node_weight).1).Pairwise weightGE ∧
    (((get_weightsState node_weight).1).map Prod.fst).Perm
      (node_weight.map Prod.fst) := by
  refine ⟨rfl, rfl, sortDesc_pairwise _, ?_⟩
  have hp := sortDesc_perm (node_weight.map (fun p =>
    let res := wordCount p.1
    let w1 := if res = 2 then 4 * p.2 else p.2
    let w2 := if res = 3 then 6 * w1 else w1
    (p.1, w2)))
  have hmap := hp.map Prod.fst
  simpa [get_weightsState, get_weights, Function.comp] using hmap

/-- C10 witness: the theorem applied at a concrete stored mapping. -/
theorem C10_get_weights_stable_witness :
    (get_weightsState [("x y", 2), ("s", 5)]).2 = [("x y", 2), ("s", 5)] :=
  (C10_get_weights_stable [("x y", 2), ("s", 5)]).1
